import Mathlib

/-!
Shallow embedding of the browser-side scripts of the mailer admin panel
(web/static/js), covering the sending-schedule editor, the template editor's
CSS handling and load routine, the campaign-letter Enter normalization, and
the mail-server domain check.  Each definition is translated from the
JavaScript source named in its doc comment.
-/

set_option maxRecDepth 8000

namespace Mailer

/-! ## JavaScript string primitives -/

/-- Whitespace characters matched by JavaScript `\s` and removed by
`String.prototype.trim`: ASCII whitespace plus NBSP (further Unicode space
separators do not occur in the inputs modelled here). -/
def isJsWs (c : Char) : Bool :=
  c = ' ' || c = '\t' || c = '\n' || c = '\r' || c = '\x0b' || c = '\x0c' || c = ' '

/-- JavaScript `String.prototype.trim` on a character list. -/
def jsTrimList (l : List Char) : List Char :=
  ((l.dropWhile isJsWs).reverse.dropWhile isJsWs).reverse

/-- JavaScript `String.prototype.trim`. -/
def jsTrim (s : String) : String := String.mk (jsTrimList s.data)

/-- JavaScript regex test `/^\d+$/`: non-empty and all decimal digits. -/
def allDigits (l : List Char) : Bool := !l.isEmpty && l.all Char.isDigit

/-- `parseInt(s, 10)` on an all-digit string. -/
def digitsToNat (l : List Char) : Nat := l.foldl (fun n c => n * 10 + (c.toNat - 48)) 0

/-- `pad2` from web/static/js/aap_settings/sending.js lines 17-24 (identical in
sending_campaign.js): trim; the empty string stays empty; strings that are not
all digits pass through unchanged; all-digit strings are parsed and re-rendered
zero-padded to two characters.  (`parseInt` never yields NaN on an all-digit
string, so the NaN branch of the source is vacuous.) -/
def pad2 (v : String) : String :=
  let s := jsTrim v
  if s = "" then ""
  else if !allDigits s.data then s
  else
    let n := digitsToNat s.data
    if n < 10 then "0" ++ toString n else toString n

/-- `toInt` from sending.js lines 26-32: trim, reject empty or non-digit
strings, else `parseInt` (always a nonnegative integer here, hence `Nat`). -/
def toInt (v : String) : Option Nat :=
  let s := jsTrim v
  if s = "" then none
  else if !allDigits s.data then none
  else some (digitsToNat s.data)

/-- `parseHHMM` from sending.js lines 34-43: match the trimmed string against
`/^(\d{1,2})\s*:\s*(\d{1,2})$/` (the maximal leading digit run must have length
1 or 2, then optional whitespace, `:`, optional whitespace, a final digit run
of length 1 or 2), convert both groups with `toInt`, and range-check hours
0-23 and minutes 0-59. -/
def parseHHMM (s : String) : Option (Nat × Nat) :=
  let l := jsTrimList s.data
  let d1 := l.takeWhile Char.isDigit
  let r1 := l.dropWhile Char.isDigit
  if d1.length < 1 || d1.length > 2 then none
  else
    match r1.dropWhile isJsWs with
    | ':' :: r2 =>
      let r3 := r2.dropWhile isJsWs
      let d2 := r3.takeWhile Char.isDigit
      let r4 := r3.dropWhile Char.isDigit
      if d2.length < 1 || d2.length > 2 || !r4.isEmpty then none
      else
        match toInt (String.mk d1), toInt (String.mk d2) with
        | some hh, some mm =>
          if hh > 23 then none
          else if mm > 59 then none
          else some (hh, mm)
        | _, _ => none
    | _ => none

/-- `toMinutes` from sending.js lines 45-50: null propagates, out-of-range
hours or minutes give null, otherwise `hh * 60 + mm`. -/
def toMinutes (hh mm : Option Nat) : Option Nat :=
  match hh, mm with
  | some h, some m =>
    if h > 23 then none else if m > 59 then none else some (h * 60 + m)
  | _, _ => none

/-! ## JavaScript values (for `ensureState` and the check endpoint) -/

/-- A JavaScript value as it occurs in these scripts: any `JSON.parse` result,
plus `undefined` for missing properties.  Object field lists come from
`JSON.parse`, whose output has unique keys. -/
inductive JsValue where
  | undefined
  | null
  | bool (b : Bool)
  | num (n : Int)
  | str (s : String)
  | arr (elems : List JsValue)
  | obj (fields : List (String × JsValue))

/-- JavaScript truthiness of a value (floats and NaN do not occur here). -/
def jsTruthy : JsValue → Bool
  | .undefined => false
  | .null => false
  | .bool b => b
  | .num n => n != 0
  | .str s => s ≠ ""
  | .arr _ => true
  | .obj _ => true

/-- JavaScript `a || b`. -/
def jsOr (a b : JsValue) : JsValue := if jsTruthy a then a else b

mutual

/-- JavaScript `String(v)` conversion. -/
def jsToString : JsValue → String
  | .undefined => "undefined"
  | .null => "null"
  | .bool b => if b then "true" else "false"
  | .num n => toString n
  | .str s => s
  | .obj _ => "[object Object]"
  | .arr xs => jsArrToString xs

/-- `Array.prototype.toString`: elements joined by `","`. -/
def jsArrToString : List JsValue → String
  | [] => ""
  | [x] => jsElemToString x
  | x :: xs => jsElemToString x ++ "," ++ jsArrToString xs

/-- One element under `Array.prototype.join`: null and undefined render empty. -/
def jsElemToString : JsValue → String
  | .undefined => ""
  | .null => ""
  | v => jsToString v

end

/-- JavaScript property read `v.k`: a named property of an object, `undefined`
otherwise (the scripts only dereference values that passed an
`typeof === "object"` test, so arrays read their absent named props). -/
def jsGet : JsValue → String → JsValue
  | .obj fs, k => (fs.lookup k).getD .undefined
  | _, _ => .undefined

/-- The eight day keys of the sending-schedule state, sending.js line 11. -/
def DAY_KEYS : List String := ["mon", "tue", "wed", "thu", "fri", "sat", "sun", "hol"]

/-- JavaScript property write `st[k] = v`: replace the value at `k`, or append
the key if absent. -/
def setField : List (String × JsValue) → String → JsValue → List (String × JsValue)
  | [], k, v => [(k, v)]
  | (k', v') :: fs, k, v => if k' = k then (k, v) :: fs else (k', v') :: setField fs k v

/-- The window-normalisation callback of `ensureState` (sending.js lines
64-68): `from = w && typeof w === "object" ? (w.from || "") : ""`, likewise
`to`, then `{ from: String(from || ""), to: String(to || "") }`. -/
def normWindow (w : JsValue) : JsValue :=
  let isObjLike : Bool := match w with
    | .obj _ => true
    | .arr _ => true
    | _ => false
  let f := if isObjLike then jsOr (jsGet w "from") (.str "") else .str ""
  let t := if isObjLike then jsOr (jsGet w "to") (.str "") else .str ""
  .obj [("from", .str (jsToString (jsOr f (.str "")))),
        ("to", .str (jsToString (jsOr t (.str ""))))]

/-- The per-day-key body of `ensureState` (sending.js lines 62-68):
`if (!Array.isArray(st[k])) st[k] = []; st[k] = st[k].map(...)`. -/
def updDay (acc : List (String × JsValue)) (k : String) : List (String × JsValue) :=
  let cur := (acc.lookup k).getD .undefined
  let ws := match cur with
    | .arr l => l
    | _ => []
  setField acc k (.arr (ws.map normWindow))

/-- `ensureState` from sending.js lines 60-71 (identical in
sending_campaign.js lines 70-81): keep `raw` only when it is a non-null,
non-array object, then normalise each of the eight day keys in order. -/
def ensureState (raw : JsValue) : JsValue :=
  let fs := match raw with
    | .obj f => f
    | _ => []
  .obj (DAY_KEYS.foldl updDay fs)

theorem lookup_setField (fs : List (String × JsValue)) (k : String) (v : JsValue)
    (k' : String) :
    (setField fs k v).lookup k' = if k' = k then some v else fs.lookup k' := by
  induction fs with
  | nil =>
    by_cases h : k' = k
    · subst h; simp [setField, List.lookup]
    · simp [setField, List.lookup, h, beq_eq_false_iff_ne.mpr h]
  | cons p fs ih =>
    obtain ⟨k₀, v₀⟩ := p
    by_cases h0 : k₀ = k
    · subst h0
      by_cases h : k' = k₀
      · subst h; simp [setField, List.lookup]
      · simp [setField, List.lookup, h, beq_eq_false_iff_ne.mpr h]
    · by_cases h : k' = k₀
      · subst h
        have hne : k' ≠ k := h0
        simp [setField, List.lookup, h0, hne]
      · simp [setField, List.lookup, h0, h, beq_eq_false_iff_ne.mpr h, ih]

theorem lookup_foldl_updDay_not_mem (ks : List String) (acc : List (String × JsValue))
    (k : String) (hk : k ∉ ks) :
    (ks.foldl updDay acc).lookup k = acc.lookup k := by
  induction ks generalizing acc with
  | nil => rfl
  | cons k₀ rest ih =>
    have hk0 : k ≠ k₀ := fun h => hk (h ▸ List.mem_cons_self k₀ rest)
    have hrest : k ∉ rest := fun h => hk (List.mem_cons_of_mem k₀ h)
    simp only [List.foldl_cons]
    rw [ih _ hrest, updDay, lookup_setField, if_neg hk0]

theorem lookup_foldl_updDay_mem (ks : List String) (hnd : ks.Nodup)
    (acc : List (String × JsValue)) (k : String) (hk : k ∈ ks) :
    ∃ ws : List JsValue,
      (ks.foldl updDay acc).lookup k = some (.arr (List.map normWindow ws)) := by
  induction ks generalizing acc with
  | nil => cases hk
  | cons k₀ rest ih =>
    simp only [List.foldl_cons]
    rcases List.mem_cons.mp hk with h | h
    · subst h
      have hnotin : k ∉ rest := (List.nodup_cons.mp hnd).1
      rw [lookup_foldl_updDay_not_mem rest _ k hnotin]
      simp only [updDay]
      rw [lookup_setField, if_pos rfl]
      exact ⟨_, rfl⟩
    · exact ih (List.nodup_cons.mp hnd).2 _ h

theorem lookup_foldl_updDay_empty (ks : List String) (hnd : ks.Nodup)
    (acc : List (String × JsValue)) (hacc : ∀ k ∈ ks, acc.lookup k = none)
    (k : String) (hk : k ∈ ks) :
    (ks.foldl updDay acc).lookup k = some (.arr []) := by
  induction ks generalizing acc with
  | nil => cases hk
  | cons k₀ rest ih =>
    simp only [List.foldl_cons]
    have hfirst : updDay acc k₀ = setField acc k₀ (.arr []) := by
      simp [updDay, hacc k₀ (List.mem_cons_self k₀ rest)]
    rcases List.mem_cons.mp hk with h | h
    · subst h
      have hnotin : k ∉ rest := (List.nodup_cons.mp hnd).1
      rw [lookup_foldl_updDay_not_mem rest _ k hnotin, hfirst, lookup_setField, if_pos rfl]
    · refine ih (List.nodup_cons.mp hnd).2 _ (fun k' hk' => ?_) h
      rw [hfirst, lookup_setField]
      have hne : k' ≠ k₀ := by
        rintro rfl
        exact (List.nodup_cons.mp hnd).1 hk'
      rw [if_neg hne]
      exact hacc k' (List.mem_cons_of_mem k₀ hk')

/-- C4: for every input value whatsoever, `ensureState` returns an object in
which each of the eight day keys maps to an array of objects each having
string fields `from` and `to`; inputs that are not plain objects yield eight
empty lists. -/
theorem ensureState_shape (raw : JsValue) :
    ∃ fields, ensureState raw = .obj fields ∧
      (∀ k ∈ DAY_KEYS, ∃ ws, fields.lookup k = some (.arr ws) ∧
        ∀ w ∈ ws, ∃ f t, w = .obj [("from", .str f), ("to", .str t)]) ∧
      ((∀ f, raw ≠ .obj f) → ∀ k ∈ DAY_KEYS, fields.lookup k = some (.arr [])) := by
  have hnd : DAY_KEYS.Nodup := by decide
  have main : ∀ fs : List (String × JsValue), ∀ k ∈ DAY_KEYS,
      ∃ ws, (DAY_KEYS.foldl updDay fs).lookup k = some (.arr ws) ∧
        ∀ w ∈ ws, ∃ f t, w = .obj [("from", .str f), ("to", .str t)] := by
    intro fs k hk
    obtain ⟨ws, hws⟩ := lookup_foldl_updDay_mem DAY_KEYS hnd fs k hk
    refine ⟨ws.map normWindow, hws, fun w hw => ?_⟩
    obtain ⟨w₀, _, rfl⟩ := List.mem_map.mp hw
    exact ⟨_, _, rfl⟩
  have empty0 : ∀ k ∈ DAY_KEYS, (DAY_KEYS.foldl updDay []).lookup k = some (.arr []) :=
    lookup_foldl_updDay_empty DAY_KEYS hnd [] (fun _ _ => rfl)
  cases raw with
  | obj f => exact ⟨_, rfl, main f, fun hraw => absurd rfl (hraw f)⟩
  | undefined => exact ⟨_, rfl, main [], fun _ => empty0⟩
  | null => exact ⟨_, rfl, main [], fun _ => empty0⟩
  | bool b => exact ⟨_, rfl, main [], fun _ => empty0⟩
  | num n => exact ⟨_, rfl, main [], fun _ => empty0⟩
  | str s => exact ⟨_, rfl, main [], fun _ => empty0⟩
  | arr xs => exact ⟨_, rfl, main [], fun _ => empty0⟩

/-- Witness for C4 at `raw = JsValue.null`. -/
theorem ensureState_shape_witness :
    ∃ fields, ensureState .null = .obj fields ∧
      (∀ k ∈ DAY_KEYS, ∃ ws, fields.lookup k = some (.arr ws) ∧
        ∀ w ∈ ws, ∃ f t, w = .obj [("from", .str f), ("to", .str t)]) ∧
      ((∀ f, JsValue.null ≠ .obj f) → ∀ k ∈ DAY_KEYS, fields.lookup k = some (.arr [])) :=
  ensureState_shape .null

/-! ## The sending-schedule submit handler (sending.js lines 406-449) -/

/-- A time window of the sending-schedule state: `{ from, to }` strings
(`from` is a Lean keyword, hence the `w` prefix). -/
structure Window where
  wFrom : String
  wTo : String
  deriving DecidableEq

/-- The sending-schedule state: one window list per day key, in the canonical
`DAY_KEYS` order in which `ensureState` materialises the keys. -/
structure SendState where
  mon : List Window
  tue : List Window
  wed : List Window
  thu : List Window
  fri : List Window
  sat : List Window
  sun : List Window
  hol : List Window
  deriving DecidableEq

/-- One character under `JSON.stringify` string escaping. -/
def jsonEscapeChar (c : Char) : String :=
  if c = '"' then "\\\""
  else if c = '\\' then "\\\\"
  else if c = '\n' then "\\n"
  else if c = '\r' then "\\r"
  else if c = '\t' then "\\t"
  else if c.toNat = 8 then "\\b"
  else if c.toNat = 12 then "\\f"
  else if c.toNat < 32 then
    "\\u00" ++ String.singleton (if c.toNat / 16 < 10 then Char.ofNat (48 + c.toNat / 16)
                                 else Char.ofNat (87 + c.toNat / 16))
            ++ String.singleton (if c.toNat % 16 < 10 then Char.ofNat (48 + c.toNat % 16)
                                 else Char.ofNat (87 + c.toNat % 16))
  else String.singleton c

/-- `JSON.stringify` of a string value. -/
def jsonQuote (s : String) : String :=
  "\"" ++ String.join (s.data.map jsonEscapeChar) ++ "\""

/-- `JSON.stringify` of one `{from, to}` window. -/
def stringifyWindow (w : Window) : String :=
  "\x7b" ++ jsonQuote "from" ++ ":" ++ jsonQuote w.wFrom ++ ","
         ++ jsonQuote "to" ++ ":" ++ jsonQuote w.wTo ++ "\x7d"

/-- `JSON.stringify` of one day's window array. -/
def stringifyDay (ws : List Window) : String :=
  "[" ++ String.intercalate "," (ws.map stringifyWindow) ++ "]"

/-- `JSON.stringify(state)` (sending.js line 448) for a state whose keys are
the eight day keys in canonical order. -/
def stringifyState (st : SendState) : String :=
  "\x7b" ++ String.intercalate ","
      ([("mon", st.mon), ("tue", st.tue), ("wed", st.wed), ("thu", st.thu),
        ("fri", st.fri), ("sat", st.sat), ("sun", st.sun), ("hol", st.hol)].map
        fun p => jsonQuote p.1 ++ ":" ++ stringifyDay p.2) ++ "\x7d"

/-- One day of the submit handler's cleaning loop (sending.js lines 417-434):
fully empty windows (both ends trim to "") are skipped; windows that fail
`parseHHMM` on either end, or whose from-minutes are not strictly below the
to-minutes, set the `hasInvalid` flag and are dropped; valid windows are kept
re-rendered as zero-padded `"HH:MM"`.  Returns (hasInvalid, cleaned list). -/
def cleanDay : List Window → Bool × List Window
  | [] => (false, [])
  | w :: ws =>
    let rest := cleanDay ws
    let f := jsTrim w.wFrom
    let t := jsTrim w.wTo
    if f = "" && t = "" then rest
    else
      let fp := parseHHMM f
      let tp := parseHHMM t
      let fMin := match fp with
        | some p => toMinutes (some p.1) (some p.2)
        | none => none
      let tMin := match tp with
        | some p => toMinutes (some p.1) (some p.2)
        | none => none
      match fp, tp, fMin, tMin with
      | some p, some q, some a, some b =>
        if a ≥ b then (true, rest.2)
        else (rest.1,
          ⟨pad2 (toString p.1) ++ ":" ++ pad2 (toString p.2),
           pad2 (toString q.1) ++ ":" ++ pad2 (toString q.2)⟩ :: rest.2)
      | _, _, _, _ => (true, rest.2)

/-- The state transformation of the `action === "save"` submit handler
(sending.js lines 411-437): clean every day and record whether any non-empty
window was invalid. -/
def submitClean (st : SendState) : Bool × SendState :=
  let m := cleanDay st.mon
  let tu := cleanDay st.tue
  let w := cleanDay st.wed
  let th := cleanDay st.thu
  let fr := cleanDay st.fri
  let sa := cleanDay st.sat
  let su := cleanDay st.sun
  let ho := cleanDay st.hol
  (m.1 || tu.1 || w.1 || th.1 || fr.1 || sa.1 || su.1 || ho.1,
   ⟨m.2, tu.2, w.2, th.2, fr.2, sa.2, su.2, ho.2⟩)

/-- The submit handler's outcome for action "save" (sending.js lines 439-448):
`none` when submission is prevented (`hasInvalid`), otherwise the JSON text
written into the hidden textarea `#yyValueJson`. -/
def submitSave (st : SendState) : Option String :=
  let r := submitClean st
  if r.1 then none else some (stringifyState r.2)

/-- A window is fully empty: both ends trim to the empty string. -/
def windowEmptyB (w : Window) : Bool :=
  decide (jsTrim w.wFrom = "") && decide (jsTrim w.wTo = "")

/-- A window is valid: both trimmed ends parse as HH:MM and the from-time is
strictly earlier than the to-time, compared in minutes. -/
def windowValidB (w : Window) : Bool :=
  match parseHHMM (jsTrim w.wFrom), parseHHMM (jsTrim w.wTo) with
  | some p, some q => decide (p.1 * 60 + p.2 < q.1 * 60 + q.2)
  | _, _ => false

/-- Modelled from the claim's words for C1 (the spec side of the refinement):
for each day, fully-empty windows are dropped and every kept window has `from`
and `to` rendered as zero-padded "HH:MM" from its parsed times. -/
def specCleanWindow (w : Window) : Option Window :=
  let f := jsTrim w.wFrom
  let t := jsTrim w.wTo
  if f = "" && t = "" then none
  else
    match parseHHMM f, parseHHMM t with
    | some p, some q =>
      some ⟨pad2 (toString p.1) ++ ":" ++ pad2 (toString p.2),
            pad2 (toString q.1) ++ ":" ++ pad2 (toString q.2)⟩
    | _, _ => none

/-- The claim-side cleaned state for C1. -/
def specCleanState (st : SendState) : SendState :=
  ⟨st.mon.filterMap specCleanWindow, st.tue.filterMap specCleanWindow,
   st.wed.filterMap specCleanWindow, st.thu.filterMap specCleanWindow,
   st.fri.filterMap specCleanWindow, st.sat.filterMap specCleanWindow,
   st.sun.filterMap specCleanWindow, st.hol.filterMap specCleanWindow⟩

theorem parseHHMM_bounds {s : String} {p : Nat × Nat} (h : parseHHMM s = some p) :
    p.1 ≤ 23 ∧ p.2 ≤ 59 := by
  obtain ⟨p1, p2⟩ := p
  simp only [parseHHMM] at h
  repeat' split at h
  all_goals simp_all

theorem cleanDay_all_valid {l : List Window}
    (h : ∀ w ∈ l, windowEmptyB w || windowValidB w = true) :
    cleanDay l = (false, l.filterMap specCleanWindow) := by
  induction l with
  | nil => rfl
  | cons w ws ih =>
    have hw := h w (List.mem_cons_self w ws)
    have hrest := ih fun x hx => h x (List.mem_cons_of_mem w hx)
    rcases Bool.or_eq_true_iff.mp hw with hemp | hval
    · have hf : jsTrim w.wFrom = "" := of_decide_eq_true (Bool.and_eq_true_iff.mp hemp).1
      have ht : jsTrim w.wTo = "" := of_decide_eq_true (Bool.and_eq_true_iff.mp hemp).2
      have hstep : cleanDay (w :: ws) = cleanDay ws := by
        simp [cleanDay, hf, ht]
      rw [hstep, hrest]
      simp [List.filterMap_cons, specCleanWindow, hf, ht]
    · rw [windowValidB] at hval
      rcases hfp : parseHHMM (jsTrim w.wFrom) with _ | p <;>
        rcases htp : parseHHMM (jsTrim w.wTo) with _ | q <;>
          rw [hfp, htp] at hval <;> try simp at hval
      have hlt : p.1 * 60 + p.2 < q.1 * 60 + q.2 := hval
      have hfb := parseHHMM_bounds hfp
      have htb := parseHHMM_bounds htp
      have hfne : ¬jsTrim w.wFrom = "" := by
        intro hf
        rw [hf] at hfp
        simp [parseHHMM, jsTrimList] at hfp
      have hfne' : (decide (jsTrim w.wFrom = "") && decide (jsTrim w.wTo = "")) = false := by
        simp [hfne]
      have hfmin : toMinutes (some p.1) (some p.2) = some (p.1 * 60 + p.2) := by
        simp only [toMinutes]
        rw [if_neg (by omega), if_neg (by omega)]
      have htmin : toMinutes (some q.1) (some q.2) = some (q.1 * 60 + q.2) := by
        simp only [toMinutes]
        rw [if_neg (by omega), if_neg (by omega)]
      have hpadded : specCleanWindow w =
          some ⟨pad2 (toString p.1) ++ ":" ++ pad2 (toString p.2),
                pad2 (toString q.1) ++ ":" ++ pad2 (toString q.2)⟩ := by
        simp only [specCleanWindow, hfne', hfp, htp, Bool.false_eq_true, if_false]
      have hstep : cleanDay (w :: ws) =
          ((cleanDay ws).1,
            ⟨pad2 (toString p.1) ++ ":" ++ pad2 (toString p.2),
             pad2 (toString q.1) ++ ":" ++ pad2 (toString q.2)⟩ :: (cleanDay ws).2) := by
        simp only [cleanDay, hfne', hfp, htp, hfmin, htmin, Bool.false_eq_true, if_false]
        rw [if_neg (by omega)]
      rw [hstep, hrest, List.filterMap_cons, hpadded]

/-- C1: when the sending-schedule form is submitted with action "save" and
every window that is not fully empty parses as HH:MM on both ends with the
from-time strictly earlier than the to-time in minutes, the submit handler
populates the hidden textarea with the JSON serialization of the cleaned
state: per day key, fully-empty windows are dropped and every kept window is
rendered as zero-padded "HH:MM". -/
theorem submitSave_all_valid (st : SendState)
    (h : ∀ w ∈ st.mon ++ st.tue ++ st.wed ++ st.thu ++ st.fri ++ st.sat ++ st.sun ++ st.hol,
        windowEmptyB w || windowValidB w = true) :
    submitSave st = some (stringifyState (specCleanState st)) := by
  have hd : ∀ l : List Window,
      (∀ w ∈ l, w ∈ st.mon ++ st.tue ++ st.wed ++ st.thu ++ st.fri ++ st.sat ++ st.sun
          ++ st.hol) →
      cleanDay l = (false, l.filterMap specCleanWindow) := by
    intro l hl
    exact cleanDay_all_valid fun w hw => h w (hl w hw)
  have hmon := hd st.mon (by intro w hw; simp [hw])
  have htue := hd st.tue (by intro w hw; simp [hw])
  have hwed := hd st.wed (by intro w hw; simp [hw])
  have hthu := hd st.thu (by intro w hw; simp [hw])
  have hfri := hd st.fri (by intro w hw; simp [hw])
  have hsat := hd st.sat (by intro w hw; simp [hw])
  have hsun := hd st.sun (by intro w hw; simp [hw])
  have hhol := hd st.hol (by intro w hw; simp [hw])
  simp only [submitSave, submitClean, hmon, htue, hwed, hthu, hfri, hsat, hsun, hhol]
  rfl

/-- Witness for C1 at a one-window state. -/
theorem submitSave_all_valid_witness :
    submitSave ⟨[⟨"9:00", "10:15"⟩], [], [], [], [], [], [], []⟩ =
      some (stringifyState (specCleanState ⟨[⟨"9:00", "10:15"⟩], [], [], [], [], [], [], []⟩)) :=
  submitSave_all_valid _ (by decide)

/-! ## Post-submit re-render (for C2) -/

/-- The triple computed by `getWindowValidity` (sending.js lines 190-208). -/
structure Validity where
  ok : Bool
  allEmpty : Bool
  complete : Bool
  deriving DecidableEq

/-- `getWindowValidity` from sending.js lines 190-208, over the four input
values: `ok` means both ends are in-range times with from-minutes strictly
below to-minutes, `allEmpty` means all four inputs are empty, `complete` means
all four are non-empty. -/
def getWindowValidity (fh fm th tm : String) : Validity :=
  let H1 := toInt fh
  let M1 := toInt fm
  let H2 := toInt th
  let M2 := toInt tm
  let allEmpty := decide (fh = "") && decide (fm = "") && decide (th = "") && decide (tm = "")
  let fOk := match H1, M1 with
    | some hh, some mm => decide (hh ≤ 23) && decide (mm ≤ 59)
    | _, _ => false
  let tOk := match H2, M2 with
    | some hh, some mm => decide (hh ≤ 23) && decide (mm ≤ 59)
    | _, _ => false
  let fMin := if fOk then toMinutes H1 M1 else none
  let tMin := if tOk then toMinutes H2 M2 else none
  let ok := match fMin, tMin with
    | some a, some b => decide (a < b)
    | _, _ => false
  let complete := !decide (fh = "") && !decide (fm = "") && !decide (th = "") && !decide (tm = "")
  ⟨ok, allEmpty, complete⟩

/-- `splitToParts` from sending.js lines 279-283. -/
def splitToParts (s : String) : String × String :=
  match parseHHMM s with
  | none => ("", "")
  | some p => (pad2 (toString p.1), pad2 (toString p.2))

/-- The invalid-highlight flag a window row carries after `renderDay` runs
`sync(true)` on it (sending.js lines 300-390): the four inputs are populated
via `splitToParts`, padded by `sync(true)`, and the row is flagged exactly
when `val.complete && !val.ok` (line 350). -/
def rowHighlight (w : Window) : Bool :=
  let fp := splitToParts w.wFrom
  let tp := splitToParts w.wTo
  let v := getWindowValidity (pad2 fp.1) (pad2 fp.2) (pad2 tp.1) (pad2 tp.2)
  v.complete && !v.ok

/-- The rows `renderDay` produces for one day (sending.js lines 287-398): one
row per stored window — with an empty row added when the day has none (lines
393-395) — each paired with its invalid-highlight flag. -/
def renderDayRows (ws : List Window) : List (Window × Bool) :=
  let ws2 := if ws.isEmpty then [⟨"", ""⟩] else ws
  ws2.map fun w => (w, rowHighlight w)

/-- C2 evaluated on a window whose from-time is after its to-time: the
submission is prevented (`submitSave` yields no textarea value and the
`hasInvalid` flag is set), but the cleaning loop has already dropped the
invalid window from the state, so the re-render (`renderAll` on the cleaned
state) shows a single fresh empty row for the day and no row anywhere carries
the invalid highlight — contradicting the claim (and the code's own comment at
sending.js line 442) that the invalid window is flagged after re-render. -/
theorem submit_invalid_window_dropped_not_flagged :
    submitSave ⟨[⟨"10:00", "09:00"⟩], [], [], [], [], [], [], []⟩ = none ∧
      (submitClean ⟨[⟨"10:00", "09:00"⟩], [], [], [], [], [], [], []⟩).1 = true ∧
      (submitClean ⟨[⟨"10:00", "09:00"⟩], [], [], [], [], [], [], []⟩).2.mon = [] ∧
      renderDayRows (submitClean ⟨[⟨"10:00", "09:00"⟩], [], [], [], [], [], [], []⟩).2.mon =
        [(⟨"", ""⟩, false)] := by
  decide

/-! ## Enter normalization of the campaign-letter editor
(campaign_letters/tinymce_config.js lines 243-319) -/

/-- A direct child of a `<p>` in the editor body.  The routine inspects only
`nodeName`/`nodeType` and the `data-mce-bogus` attribute of direct children;
any other element is moved wholesale and never entered, so its content is
irrelevant and it is modelled by its tag alone. -/
inductive DomNode where
  | br (bogus : Bool)
  | text (s : String)
  | elem (tag : String)
  deriving DecidableEq

/-- A `<p>` element, as its list of direct children. -/
abbrev Para := List DomNode

/-- `isRealBR` (tinymce_config.js lines 243-247): a BR element without the
`data-mce-bogus` attribute. -/
def isRealBR : DomNode → Bool
  | .br bogus => !bogus
  | _ => false

/-- `isEmptyText` (lines 249-250): a text node whose value trims to "". -/
def isEmptyText : DomNode → Bool
  | .text s => decide (jsTrim s = "")
  | _ => false

/-- `findDoubleBr` (lines 258-266) combined with the node positions `splitP`
needs: scan the children for the first real `<br>` whose next meaningful
sibling (`nextMeaningful`, lines 252-256: skip whitespace-only text nodes) is
also a real `<br>`; return the children strictly before the first `<br>` and
those strictly after the second. -/
def findDoubleBr : Para → Option (Para × Para)
  | [] => none
  | n :: rest =>
    if isRealBR n then
      match rest.dropWhile isEmptyText with
      | m :: rest2 =>
        if isRealBR m then some ([], rest2)
        else (findDoubleBr rest).map fun pr => (n :: pr.1, pr.2)
      | [] => (findDoubleBr rest).map fun pr => (n :: pr.1, pr.2)
    else (findDoubleBr rest).map fun pr => (n :: pr.1, pr.2)

/-- The text node `newP.innerHTML = "&nbsp;"` creates (line 292): a single
U+00A0 non-breaking space. -/
def nbspText : DomNode := .text "\u00A0"

/-- `splitP` (lines 268-296): when the paragraph holds a double `<br>`, the
content after the second `<br>` moves to a freshly created `<p>` (a single
`&nbsp;` text when that content is empty), and the first `<br>`, the
whitespace-only texts between, and the second `<br>` are removed.  Returns
(what remains of `p`, the new paragraph) or `none` when there is no hit. -/
def splitP (p : Para) : Option (Para × Para) :=
  match findDoubleBr p with
  | none => none
  | some (pre, post) => some (pre, if post.isEmpty then [nbspText] else post)

/-- Number of real (non-bogus) `<br>` children of a paragraph. -/
def countRealBR (l : Para) : Nat := l.countP fun n => isRealBR n

theorem isRealBR_iff {n : DomNode} : isRealBR n = true ↔ n = .br false := by
  cases n with
  | br b => cases b <;> simp [isRealBR]
  | text s => simp [isRealBR]
  | elem t => simp [isRealBR]

theorem findDoubleBr_decomp {p pre post : Para}
    (h : findDoubleBr p = some (pre, post)) :
    ∃ mids, p = pre ++ .br false :: (mids ++ .br false :: post) ∧
      ∀ n ∈ mids, isEmptyText n = true := by
  induction p generalizing pre post with
  | nil => simp [findDoubleBr] at h
  | cons n rest ih =>
    rw [findDoubleBr] at h
    by_cases hn : isRealBR n = true
    · rw [if_pos hn] at h
      split at h
      next m rest2 hdw =>
        by_cases hm : isRealBR m = true
        · rw [if_pos hm] at h
          obtain ⟨hpre, hpost⟩ := Prod.mk.inj (Option.some.inj h)
          subst hpre
          subst hpost
          have hn' := isRealBR_iff.mp hn
          have hm' := isRealBR_iff.mp hm
          subst hn'
          subst hm'
          refine ⟨rest.takeWhile isEmptyText, ?_, fun x hx => List.mem_takeWhile_imp hx⟩
          have hrest : rest = rest.takeWhile isEmptyText ++ (DomNode.br false :: rest2) := by
            conv_lhs => rw [← List.takeWhile_append_dropWhile (p := isEmptyText) (l := rest), hdw]
          simp only [List.nil_append, List.cons.injEq, true_and]
          exact hrest
        · rw [if_neg hm] at h
          obtain ⟨⟨pre', post'⟩, hfd, heq⟩ := Option.map_eq_some'.mp h
          obtain ⟨hpre, hpost⟩ := Prod.mk.inj heq
          subst hpre
          subst hpost
          obtain ⟨mids, hrest, hmids⟩ := ih hfd
          exact ⟨mids, by rw [hrest]; rfl, hmids⟩
      next hdw =>
        obtain ⟨⟨pre', post'⟩, hfd, heq⟩ := Option.map_eq_some'.mp h
        obtain ⟨hpre, hpost⟩ := Prod.mk.inj heq
        subst hpre
        subst hpost
        obtain ⟨mids, hrest, hmids⟩ := ih hfd
        exact ⟨mids, by rw [hrest]; rfl, hmids⟩
    · rw [if_neg hn] at h
      obtain ⟨⟨pre', post'⟩, hfd, heq⟩ := Option.map_eq_some'.mp h
      obtain ⟨hpre, hpost⟩ := Prod.mk.inj heq
      subst hpre
      subst hpost
      obtain ⟨mids, hrest, hmids⟩ := ih hfd
      exact ⟨mids, by rw [hrest]; rfl, hmids⟩

theorem findDoubleBr_prefix_none {p pre post : Para}
    (h : findDoubleBr p = some (pre, post)) :
    findDoubleBr pre = none := by
  induction p generalizing pre post with
  | nil => simp [findDoubleBr] at h
  | cons n rest ih =>
    rw [findDoubleBr] at h
    by_cases hn : isRealBR n = true
    · rw [if_pos hn] at h
      split at h
      next m rest2 hdw =>
        by_cases hm : isRealBR m = true
        · rw [if_pos hm] at h
          obtain ⟨hpre, hpost⟩ := Prod.mk.inj (Option.some.inj h)
          subst hpre
          rfl
        · rw [if_neg hm] at h
          obtain ⟨⟨pre', post'⟩, hfd, heq⟩ := Option.map_eq_some'.mp h
          obtain ⟨hpre, hpost⟩ := Prod.mk.inj heq
          subst hpre
          subst hpost
          obtain ⟨mids, hrest, hmids⟩ := findDoubleBr_decomp hfd
          have ihres : findDoubleBr pre' = none := ih hfd
          rcases hcase : pre'.dropWhile isEmptyText with _ | ⟨m', s⟩
          · exfalso
            have hempty : (pre'.dropWhile isEmptyText).isEmpty = true := by
              rw [hcase]; rfl
            have hdw2 : rest.dropWhile isEmptyText =
                DomNode.br false :: (mids ++ DomNode.br false :: post') := by
              rw [hrest, List.dropWhile_append, if_pos hempty, List.dropWhile_cons,
                if_neg (by simp [isEmptyText])]
            rw [hdw] at hdw2
            obtain ⟨hm2, -⟩ := List.cons.inj hdw2
            rw [hm2] at hm
            exact hm rfl
          · have hne : ¬(pre'.dropWhile isEmptyText).isEmpty = true := by
              rw [hcase]; simp
            have hdw2 : rest.dropWhile isEmptyText =
                m' :: (s ++ (DomNode.br false :: (mids ++ DomNode.br false :: post'))) := by
              rw [hrest, List.dropWhile_append, if_neg hne, hcase]
              rfl
            rw [hdw] at hdw2
            obtain ⟨hm2, -⟩ := List.cons.inj hdw2
            rw [findDoubleBr, if_pos hn, hcase]
            have hm' : ¬isRealBR m' = true := by
              rw [← hm2]; exact hm
            simp [hm', ihres]
      next hdw =>
        exfalso
        obtain ⟨⟨pre', post'⟩, hfd, heq⟩ := Option.map_eq_some'.mp h
        obtain ⟨mids, hrest, hmids⟩ := findDoubleBr_decomp hfd
        have hall := List.dropWhile_eq_nil_iff.mp hdw
        have hbr : DomNode.br false ∈ rest := by
          rw [hrest]
          exact List.mem_append_right _ (List.mem_cons_self _ _)
        have := hall _ hbr
        simp [isEmptyText] at this
    · rw [if_neg hn] at h
      obtain ⟨⟨pre', post'⟩, hfd, heq⟩ := Option.map_eq_some'.mp h
      obtain ⟨hpre, hpost⟩ := Prod.mk.inj heq
      subst hpre
      subst hpost
      have ihres : findDoubleBr pre' = none := ih hfd
      rw [findDoubleBr, if_neg hn, ihres]
      rfl

theorem isEmptyText_not_realBR {n : DomNode} (h : isEmptyText n = true) :
    isRealBR n = false := by
  cases n <;> simp_all [isEmptyText, isRealBR]

theorem countRealBR_findDoubleBr {p pre post : Para}
    (h : findDoubleBr p = some (pre, post)) :
    countRealBR pre + countRealBR post + 2 = countRealBR p := by
  obtain ⟨mids, hp, hmids⟩ := findDoubleBr_decomp h
  subst hp
  have hmids0 : countRealBR mids = 0 := by
    rw [countRealBR, List.countP_eq_zero]
    intro n hn
    simp [isEmptyText_not_realBR (hmids n hn)]
  simp only [countRealBR] at hmids0 ⊢
  rw [List.countP_append, List.countP_cons_of_pos _ _ (by rfl), List.countP_append,
    List.countP_cons_of_pos _ _ (by rfl), hmids0]
  omega

theorem countRealBR_splitP {p pre q : Para} (h : splitP p = some (pre, q)) :
    countRealBR pre + countRealBR q + 2 = countRealBR p := by
  rw [splitP] at h
  split at h
  · exact absurd h (by simp)
  next pre' post hfd =>
    obtain ⟨hpre, hq⟩ := Prod.mk.inj (Option.some.inj h)
    subst hpre
    have hcount := countRealBR_findDoubleBr hfd
    by_cases hpost : post.isEmpty
    · have : q = [nbspText] := by rw [← hq, if_pos hpost]
      subst this
      have : post = [] := by
        cases post with
        | nil => rfl
        | cons a l => simp [List.isEmpty] at hpost
      subst this
      simpa [countRealBR, nbspText, List.countP, List.countP.go, isRealBR] using hcount
    · have : q = post := by rw [← hq, if_neg hpost]
      subst this
      exact hcount

set_option linter.unusedVariables false in
/-- The net effect of `normalizeAllP`'s inner while-loop on one paragraph
(tinymce_config.js lines 306-315): keep splitting the (last created)
paragraph while it holds a double `<br>`; in the sibling list the paragraph
is replaced in place by the chain of split-off paragraphs, in document order.
Terminates because every split removes two real `<br>`s (measure
`countRealBR`). -/
def splitFully (p : Para) : List Para :=
  match hs : splitP p with
  | none => [p]
  | some (pre, q) => pre :: splitFully q
termination_by countRealBR p
decreasing_by
  have := countRealBR_splitP hs
  omega

/-- The net effect of `normalizeAllP` (tinymce_config.js lines 298-319) on the
body's list of `<p>` elements: the outer loop walks the worklist `ps` (the
original paragraphs plus every created paragraph, spliced in next to its
origin), so each paragraph of the body is split fully, in place. -/
def normalizeAllP (body : List Para) : List Para :=
  body.flatMap splitFully

theorem splitP_none_iff {p : Para} : splitP p = none ↔ findDoubleBr p = none := by
  rw [splitP]
  cases h : findDoubleBr p with
  | none => simp
  | some pr => obtain ⟨pre, post⟩ := pr; simp

theorem splitP_some {p pre q : Para} (h : splitP p = some (pre, q)) :
    ∃ post, findDoubleBr p = some (pre, post) ∧
      q = (if post.isEmpty then [nbspText] else post) := by
  rw [splitP] at h
  split at h
  · exact absurd h (by simp)
  next pre' post hfd =>
    obtain ⟨hpre, hq⟩ := Prod.mk.inj (Option.some.inj h)
    subst hpre
    exact ⟨post, hfd, hq.symm⟩

theorem splitFully_of_none {p : Para} (h : splitP p = none) : splitFully p = [p] := by
  rw [splitFully.eq_def]
  split
  · rfl
  next pre q hs =>
    rw [h] at hs
    exact absurd hs (by simp)

theorem splitFully_of_some {p pre q : Para} (h : splitP p = some (pre, q)) :
    splitFully p = pre :: splitFully q := by
  rw [splitFully.eq_def]
  split
  next hs =>
    rw [h] at hs
    exact absurd hs (by simp)
  next pre' q' hs =>
    rw [h] at hs
    obtain ⟨hpre, hq⟩ := Prod.mk.inj (Option.some.inj hs)
    rw [hpre, hq]

theorem splitFully_clean :
    ∀ n (p : Para), countRealBR p ≤ n → ∀ r ∈ splitFully p, findDoubleBr r = none := by
  intro n
  induction n with
  | zero =>
    intro p hp r hr
    have hfd : findDoubleBr p = none := by
      cases hfd : findDoubleBr p with
      | none => rfl
      | some pr =>
        obtain ⟨pre, post⟩ := pr
        have := countRealBR_findDoubleBr hfd
        omega
    rw [splitFully_of_none (splitP_none_iff.mpr hfd)] at hr
    simp at hr
    rw [hr]
    exact hfd
  | succ n ih =>
    intro p hp r hr
    cases hs : splitP p with
    | none =>
      rw [splitFully_of_none hs] at hr
      simp at hr
      rw [hr]
      exact splitP_none_iff.mp hs
    | some pr =>
      obtain ⟨pre, q⟩ := pr
      rw [splitFully_of_some hs] at hr
      rcases List.mem_cons.mp hr with rfl | hr'
      · obtain ⟨post, hfd, -⟩ := splitP_some hs
        exact findDoubleBr_prefix_none hfd
      · have hcount := countRealBR_splitP hs
        exact ih q (by omega) r hr'

/-- The predicate of the C5 claim: the paragraph contains a pair of real
`<br>`s separated only by whitespace-only text nodes. -/
def hasDoubleBr (p : Para) : Prop :=
  ∃ pre mids post, p = pre ++ DomNode.br false :: (mids ++ DomNode.br false :: post) ∧
    ∀ n ∈ mids, isEmptyText n = true

theorem findDoubleBr_none_not_hasDoubleBr {p : Para} (h : findDoubleBr p = none) :
    ¬hasDoubleBr p := by
  rintro ⟨pre, mids, post, hp, hmids⟩
  subst hp
  induction pre with
  | nil =>
    simp only [List.nil_append] at h
    rw [findDoubleBr, if_pos (show isRealBR (DomNode.br false) = true from rfl)] at h
    have hdw : (mids ++ DomNode.br false :: post).dropWhile isEmptyText =
        DomNode.br false :: post := by
      have hmempty : mids.dropWhile isEmptyText = [] := List.dropWhile_eq_nil_iff.mpr hmids
      rw [List.dropWhile_append, if_pos (by rw [hmempty]; rfl), List.dropWhile_cons,
        if_neg (by simp [isEmptyText])]
    split at h
    next m rest2 heq =>
      rw [hdw] at heq
      obtain ⟨hm, -⟩ := List.cons.inj heq
      rw [← hm, if_pos (show isRealBR (DomNode.br false) = true from rfl)] at h
      exact absurd h (by simp)
    next heq =>
      rw [hdw] at heq
      exact absurd heq (by simp)
  | cons x pre ihp =>
    simp only [List.cons_append] at h
    rw [findDoubleBr] at h
    by_cases hx : isRealBR x = true
    · rw [if_pos hx] at h
      split at h
      next m rest2 heq =>
        by_cases hm : isRealBR m = true
        · rw [if_pos hm] at h
          exact absurd h (by simp)
        · rw [if_neg hm] at h
          exact ihp (Option.map_eq_none'.mp h)
      next heq =>
        exact ihp (Option.map_eq_none'.mp h)
    · rw [if_neg hx] at h
      exact ihp (Option.map_eq_none'.mp h)

/-- C5: for every finite editor body, after `normalizeAllP` no `<p>` contains
a pair of real `<br>`s (BR nodes without `data-mce-bogus`) separated only by
whitespace-only text nodes; and every double break is replaced by a paragraph
split whose newly created `<p>` receives exactly the content that followed
the pair, or a single non-breaking-space text node if that content is empty. -/
theorem normalizeAllP_no_doubleBr (body : List Para) :
    (∀ r ∈ normalizeAllP body, ¬hasDoubleBr r) ∧
    (∀ p pre q, splitP p = some (pre, q) →
      ∃ mids post, p = pre ++ DomNode.br false :: (mids ++ DomNode.br false :: post) ∧
        (∀ n ∈ mids, isEmptyText n = true) ∧
        q = (if post.isEmpty then [nbspText] else post)) := by
  constructor
  · intro r hr
    obtain ⟨p, hp, hrp⟩ := List.mem_flatMap.mp hr
    exact findDoubleBr_none_not_hasDoubleBr (splitFully_clean (countRealBR p) p le_rfl r hrp)
  · intro p pre q hs
    obtain ⟨post, hfd, hq⟩ := splitP_some hs
    obtain ⟨mids, hp, hmids⟩ := findDoubleBr_decomp hfd
    exact ⟨mids, post, hp, hmids, hq⟩

/-- Witness for C5 on the body `[<p><br><br></p>]`. -/
theorem normalizeAllP_no_doubleBr_witness :
    ¬hasDoubleBr [] ∧
      (∃ mids post, ([DomNode.br false, DomNode.br false] : Para) =
          [] ++ DomNode.br false :: (mids ++ DomNode.br false :: post) ∧
        (∀ n ∈ mids, isEmptyText n = true) ∧
        ([nbspText] : Para) = (if post.isEmpty then [nbspText] else post)) := by
  have h1 : splitFully [DomNode.br false, DomNode.br false] = [([] : Para), [nbspText]] := by
    rw [@splitFully_of_some [DomNode.br false, DomNode.br false] [] [nbspText] rfl,
      @splitFully_of_none [nbspText] rfl]
  constructor
  · refine (normalizeAllP_no_doubleBr [[DomNode.br false, DomNode.br false]]).1 [] ?_
    rw [normalizeAllP, List.flatMap_cons, h1]
    simp
  · exact (normalizeAllP_no_doubleBr [[DomNode.br false, DomNode.br false]]).2
      [DomNode.br false, DomNode.br false] [] [nbspText] rfl

theorem splitFully_length_le :
    ∀ n (p : Para), countRealBR p ≤ n →
      (splitFully p).length ≤ 1 + countRealBR p / 2 := by
  intro n
  induction n with
  | zero =>
    intro p hp
    have hfd : findDoubleBr p = none := by
      cases hfd : findDoubleBr p with
      | none => rfl
      | some pr =>
        obtain ⟨pre, post⟩ := pr
        have := countRealBR_findDoubleBr hfd
        omega
    rw [splitFully_of_none (splitP_none_iff.mpr hfd)]
    simp
  | succ n ih =>
    intro p hp
    cases hs : splitP p with
    | none =>
      rw [splitFully_of_none hs]
      simp
    | some pr =>
      obtain ⟨pre, q⟩ := pr
      rw [splitFully_of_some hs]
      have hcount := countRealBR_splitP hs
      have hq := ih q (by omega)
      simp only [List.length_cons]
      omega

/-- C6: `normalizeAllP` terminates for every finite editor DOM despite its
unbounded inner while-loop and growing worklist (in this model, `splitFully`
is well-founded on the count of real `<br>`s): every successful `splitP`
removes exactly two real `<br>` nodes and creates none, so the number of
splits — the number of paragraphs the routine adds — is bounded by half the
initial number of real `<br>` nodes. -/
theorem normalizeAllP_split_bound (body : List Para) :
    (∀ p pre q, splitP p = some (pre, q) →
        countRealBR pre + countRealBR q + 2 = countRealBR p) ∧
    (normalizeAllP body).length ≤ body.length + (body.map countRealBR).sum / 2 := by
  refine ⟨fun p pre q h => countRealBR_splitP h, ?_⟩
  induction body with
  | nil => simp [normalizeAllP]
  | cons p rest ih =>
    have h1 := splitFully_length_le (countRealBR p) p le_rfl
    have h2 : normalizeAllP (p :: rest) = splitFully p ++ normalizeAllP rest := by
      rw [normalizeAllP, List.flatMap_cons, normalizeAllP]
    rw [h2, List.length_append]
    simp only [List.length_cons, List.map_cons, List.sum_cons]
    omega

/-- Witness for C6 on the body `[<p><br><br></p>]`. -/
theorem normalizeAllP_split_bound_witness :
    countRealBR [] + countRealBR [nbspText] + 2 =
        countRealBR [DomNode.br false, DomNode.br false] ∧
      (normalizeAllP [[DomNode.br false, DomNode.br false]]).length ≤
        1 + (([[DomNode.br false, DomNode.br false]] : List Para).map countRealBR).sum / 2 := by
  constructor
  · exact (normalizeAllP_split_bound []).1 [DomNode.br false, DomNode.br false]
      [] [nbspText] rfl
  · exact (normalizeAllP_split_bound [[DomNode.br false, DomNode.br false]]).2

/-! ## Client-side CSS formatting of the template editor
(campaign_templates_editor.js, src/unnamed/part_000) -/

/-- Split a character list at the first occurrence of `c`: `(before, after)`
with the separator removed, or `none` when `c` does not occur.  This is the
lazy matching of `[\s\S]*?` up to the next brace in the `formatCss` regex, and
of `indexOf(":")`. -/
def breakAt (c : Char) : List Char → Option (List Char × List Char)
  | [] => none
  | x :: xs =>
    if x = c then some ([], xs)
    else (breakAt c xs).map fun pr => (x :: pr.1, pr.2)

theorem breakAt_after_length {c : Char} :
    ∀ {l before after : List Char}, breakAt c l = some (before, after) →
      after.length < l.length := by
  intro l
  induction l with
  | nil => intro before after h; simp [breakAt] at h
  | cons x xs ih =>
    intro before after h
    rw [breakAt] at h
    by_cases hx : x = c
    · rw [if_pos hx] at h
      obtain ⟨h1, h2⟩ := Prod.mk.inj (Option.some.inj h)
      subst h2
      simp
    · rw [if_neg hx] at h
      obtain ⟨⟨b', a'⟩, hb, heq⟩ := Option.map_eq_some'.mp h
      obtain ⟨h1, h2⟩ := Prod.mk.inj heq
      subst h2
      have := ih hb
      simp only [List.length_cons]
      omega

/-- One declaration inside a rule body (`formatCss`, part_000 lines 48-57):
trim the segment, skip it when empty or without ":", split at the first ":",
trim key and value, skip when the key is empty, else render `"  k: v;"`. -/
def formatProp (pstr : String) : Option String :=
  let s := jsTrim pstr
  if s = "" then none
  else
    match breakAt ':' s.data with
    | none => none
    | some (k0, v0) =>
      let k := jsTrim (String.mk k0)
      let v := jsTrim (String.mk v0)
      if k = "" then none
      else some ("  " ++ k ++ ": " ++ v ++ ";")

/-- JavaScript `String.prototype.split` with a one-character separator, over
the character list (`"".split(";")` is `[""]`). -/
def splitOnChar (c : Char) : List Char → List (List Char)
  | [] => [[]]
  | x :: xs =>
    if x = c then [] :: splitOnChar c xs
    else
      match splitOnChar c xs with
      | [] => [[x]]
      | y :: ys => (x :: y) :: ys

/-- One rule of `formatCss` (part_000 lines 42-61): trim the selector and the
body, skip the rule when the selector is empty or no declaration survives,
else render the rule re-indented. -/
def formatRule (sel body : String) : Option String :=
  let s := jsTrim sel
  if s = "" then none
  else
    let b := jsTrim body
    let props := (splitOnChar ';' b.data).filterMap fun seg => formatProp (String.mk seg)
    if props.isEmpty then none
    else some (s ++ " \x7b\n" ++ String.intercalate "\n" props ++ "\n\x7d\n")

set_option linter.unusedVariables false in
/-- The `while ((m = re.exec(txt)))` loop of `formatCss` (part_000 lines
40-61) with `re = /([\s\S]*?)\x7b([\s\S]*?)\x7d/g`: repeatedly take the text
up to the next `\x7b` as selector and the text up to the following `\x7d` as
body, emit the formatted rule, and continue after the closing brace. -/
def formatCssLoop (l : List Char) : List String :=
  match h1 : breakAt '\x7b' l with
  | none => []
  | some (sel, rest) =>
    match h2 : breakAt '\x7d' rest with
    | none => []
    | some (body, rest2) =>
      match formatRule (String.mk sel) (String.mk body) with
      | none => formatCssLoop rest2
      | some r => r :: formatCssLoop rest2
termination_by l.length
decreasing_by
  all_goals
    have ha := breakAt_after_length h1
    have hb := breakAt_after_length h2
    omega

/-- `formatCss` from campaign_templates_editor.js lines 35-64
(src/unnamed/part_000): re-format the CSS text rule by rule; the empty
(trimmed) input yields `""`, otherwise the joined rules are trimmed and a
final newline appended. -/
def formatCss (cssText : String) : String :=
  let txt := jsTrim cssText
  if txt = "" then ""
  else jsTrim (String.intercalate "\n" (formatCssLoop txt.data)) ++ "\n"

/-- The template editor's CSS state setter `applyCss` (part_000 lines
126-134): `lastCssText = (cssText || "").trim()`. -/
def applyCssState (cssText : String) : String := jsTrim cssText

/-- What the user-mode submit handler stores into the hidden CSS form field
(part_000 lines 205-219): `hiddenCss.value = lastCssText || ""`. -/
def hiddenCssOnSubmit (lastCssText : String) : String :=
  if lastCssText = "" then "" else lastCssText

/-- What `yyTplSwitchToAdvanced` stores into the advanced CSS code editor
(part_000 line 181): `advCss.value = formatCss(lastCssText)`. -/
def advCssOnSwitch (lastCssText : String) : String := formatCss lastCssText

theorem formatCssLoop_of_first_none {l : List Char} (h : breakAt '\x7b' l = none) :
    formatCssLoop l = [] := by
  rw [formatCssLoop.eq_def]
  split
  · rfl
  next sel rest h1 =>
    rw [h] at h1
    exact absurd h1 (by simp)

theorem formatCssLoop_step {l sel rest body rest2 : List Char}
    (h1 : breakAt '\x7b' l = some (sel, rest))
    (h2 : breakAt '\x7d' rest = some (body, rest2)) :
    formatCssLoop l =
      match formatRule (String.mk sel) (String.mk body) with
      | none => formatCssLoop rest2
      | some r => r :: formatCssLoop rest2 := by
  rw [formatCssLoop.eq_def]
  split
  next h1' =>
    rw [h1] at h1'
    exact absurd h1' (by simp)
  next sel' rest' h1' =>
    rw [h1] at h1'
    obtain ⟨hsel, hrest⟩ := Prod.mk.inj (Option.some.inj h1')
    subst hsel
    subst hrest
    split
    next h2' =>
      rw [h2] at h2'
      exact absurd h2' (by simp)
    next body' rest2' h2' =>
      rw [h2] at h2'
      obtain ⟨hbody, hrest2⟩ := Prod.mk.inj (Option.some.inj h2')
      subst hbody
      subst hrest2
      rfl

/-- Counterexample for C3: the client does reformat CSS.  For the stored CSS
string `"a\x7bcolor:red\x7d"` (which is already trimmed), switching the
template editor to advanced mode stores `formatCss` output — with the
selector and declaration re-spaced and re-indented — into the CSS code
editor, not the string itself. -/
theorem advCss_reformats_counterexample :
    advCssOnSwitch (applyCssState "a\x7bcolor:red\x7d") = "a \x7b\n  color: red;\n\x7d\n" ∧
      jsTrim "a\x7bcolor:red\x7d" = "a\x7bcolor:red\x7d" ∧
      advCssOnSwitch (applyCssState "a\x7bcolor:red\x7d") ≠ "a\x7bcolor:red\x7d" := by
  have h1 : breakAt '\x7b' ("a\x7bcolor:red\x7d".data) =
      some ("a".data, "color:red\x7d".data) := by decide
  have h2 : breakAt '\x7d' ("color:red\x7d".data) = some ("color:red".data, []) := by decide
  have hL : formatCssLoop ("a\x7bcolor:red\x7d".data) = ["a \x7b\n  color: red;\n\x7d\n"] := by
    rw [formatCssLoop_step h1 h2, formatCssLoop_of_first_none (by decide)]
    decide
  have hcss : advCssOnSwitch (applyCssState "a\x7bcolor:red\x7d") =
      "a \x7b\n  color: red;\n\x7d\n" := by
    show formatCss (jsTrim "a\x7bcolor:red\x7d") = _
    have htrim : jsTrim "a\x7bcolor:red\x7d" = "a\x7bcolor:red\x7d" := by decide
    simp only [formatCss, htrim, hL]
    rw [if_neg (by decide)]
    decide
  refine ⟨hcss, by decide, ?_⟩
  rw [hcss]
  decide

/-- C3 amended: the hidden CSS form field does receive the editor's CSS
unchanged up to trimming on submit, but `yyTplSwitchToAdvanced` reformats the
CSS client-side with `formatCss` before storing it into the advanced CSS code
editor — CSS formatting is not left entirely to the server. -/
theorem cssStorage_amended (css : String) :
    hiddenCssOnSubmit (applyCssState css) = jsTrim css ∧
      advCssOnSwitch (applyCssState css) = formatCss (jsTrim css) := by
  constructor
  · rw [hiddenCssOnSubmit, applyCssState]
    by_cases h : jsTrim css = ""
    · rw [if_pos h, h]
    · rw [if_neg h]
  · rfl

/-! ## Mail-server domain check (aap_settings/mail_servers_checks.js) -/

/-- Two-space indentation prefix used by `JSON.stringify(res, null, 2)`. -/
def indentStr (n : Nat) : String := String.mk (List.replicate n ' ')

mutual

/-- `JSON.stringify(v, null, 2)` at indentation depth `ind`.  The value comes
from `await r.json()` (JSON.parse), so `undefined` never occurs inside it; it is
rendered like null. -/
def jsonPretty (ind : Nat) : JsValue → String
  | .undefined => "null"
  | .null => "null"
  | .bool b => if b then "true" else "false"
  | .num n => toString n
  | .str s => jsonQuote s
  | .arr xs =>
    match xs with
    | [] => "[]"
    | _ => "[\n" ++ jsonPrettyArr (ind + 2) xs ++ "\n" ++ indentStr ind ++ "]"
  | .obj fs =>
    match fs with
    | [] => "\x7b\x7d"
    | _ => "\x7b\n" ++ jsonPrettyObj (ind + 2) fs ++ "\n" ++ indentStr ind ++ "\x7d"

/-- Array elements of `JSON.stringify(·, null, 2)`, one per line. -/
def jsonPrettyArr (ind : Nat) : List JsValue → String
  | [] => ""
  | [x] => indentStr ind ++ jsonPretty ind x
  | x :: xs => indentStr ind ++ jsonPretty ind x ++ ",\n" ++ jsonPrettyArr ind xs

/-- Object members of `JSON.stringify(·, null, 2)`, one per line. -/
def jsonPrettyObj (ind : Nat) : List (String × JsValue) → String
  | [] => ""
  | [(k, v)] => indentStr ind ++ jsonQuote k ++ ": " ++ jsonPretty ind v
  | (k, v) :: fs =>
    indentStr ind ++ jsonQuote k ++ ": " ++ jsonPretty ind v ++ ",\n" ++ jsonPrettyObj ind fs

end

/-- Final page state after `yyMailServersCheck` returns. -/
structure CheckOutcome where
  outValue : String
  btnDisabled : Bool
  threw : Bool
  deriving DecidableEq

/-- `yyMailServersCheck` (mail_servers_checks.js lines 36-67), given the
outcome of the awaited `postJson` call (`Except` carries `e.message` of the
rejection).  On resolution the output box shows pretty-printed JSON for
truthy `typeof === "object"` results and `String(res || "")` otherwise; on
rejection the `catch` sets the box to `"ERROR: " + e.message`; the `finally`
re-enables the button in both paths; the error is consumed, so the async
function always resolves (`threw := false` structurally). -/
def yyMailServersCheck (post : Except String JsValue) : CheckOutcome :=
  match post with
  | .ok res =>
    { outValue :=
        match res with
        | .obj _ => jsonPretty 0 res
        | .arr _ => jsonPretty 0 res
        | _ => jsToString (jsOr res (.str ""))
      btnDisabled := false
      threw := false }
  | .error msg =>
    { outValue := "ERROR: " ++ msg
      btnDisabled := false
      threw := false }

/-- C7: a failed mail-server check never escapes as an exception: whenever
the POST rejects, the output textarea is set to the literal text `"ERROR: "`
followed by the error message; the triggering button is re-enabled in every
case (success or failure); and the async function resolves without throwing. -/
theorem yyMailServersCheck_error_handling :
    (∀ msg, yyMailServersCheck (.error msg) =
      { outValue := "ERROR: " ++ msg, btnDisabled := false, threw := false }) ∧
    ∀ r, (yyMailServersCheck r).btnDisabled = false ∧ (yyMailServersCheck r).threw = false := by
  refine ⟨fun msg => rfl, fun r => ?_⟩
  cases r with
  | ok v => exact ⟨rfl, rfl⟩
  | error msg => exact ⟨rfl, rfl⟩

/-! ## Template editor load routine (campaign_templates/tinymce.js lines
19-23 and 78-103) -/

/-- UTF-8 bytes of a character. -/
def utf8Bytes (c : Char) : List Nat :=
  let n := c.toNat
  if n < 128 then [n]
  else if n < 2048 then [192 + n / 64, 128 + n % 64]
  else if n < 65536 then [224 + n / 4096, 128 + (n / 64) % 64, 128 + n % 64]
  else [240 + n / 262144, 128 + (n / 4096) % 64, 128 + (n / 64) % 64, 128 + n % 64]

/-- Uppercase hexadecimal digit. -/
def hexDigitU (n : Nat) : Char :=
  if n < 10 then Char.ofNat (48 + n) else Char.ofNat (55 + n)

/-- `encodeURIComponent`: unreserved characters pass through, every other
character is percent-encoded from its UTF-8 bytes. -/
def encodeURIComponent (s : String) : String :=
  String.join (s.data.map fun c =>
    if c.isAlphanum || c = '-' || c = '_' || c = '.' || c = '!' || c = '~' || c = '*'
        || c = '\x27' || c = '(' || c = ')' then
      String.singleton c
    else
      String.join ((utf8Bytes c).map fun b =>
        "%" ++ String.singleton (hexDigitU (b / 16)) ++ String.singleton (hexDigitU (b % 16))))

/-- The HTML render endpoint URL built at tinymce.js line 91. -/
def urlHtmlFor (uiId : String) : String :=
  "/panel/campaigns/templates/_render-user-html/?id=" ++ encodeURIComponent uiId

/-- The CSS render endpoint URL built at tinymce.js line 92. -/
def urlCssFor (uiId : String) : String :=
  "/panel/campaigns/templates/_render-user-css/?id=" ++ encodeURIComponent uiId

/-- An observable step of `loadExistingInto`. -/
inductive LoadEv where
  | fetchHtml (url : String)
  | setContent (html : String)
  | fetchCss (url : String)
  | applyCss (css : String)
  deriving DecidableEq

/-- State of the promise chain: the steps performed so far, and the pending
rejection if one is in flight. -/
structure LoadRun where
  events : List LoadEv
  rejected : Option String
  deriving DecidableEq

/-- The `.then` chain of `loadExistingInto` (tinymce.js lines 78-102) before
the final `.catch`, for given query parameters and fetch outcomes.  A fetch
outcome is `Except`: `fetchText` (lines 19-23) throws `HTTP <status>` on a
non-OK response, and a network failure rejects; either way the rest of the
chain is skipped and the rejection stays pending.  Outside edit mode the
routine just clears the editor and the CSS. -/
def loadChain (state uiId : String) (hres cres : Except String String) : LoadRun :=
  if state = "edit" ∧ uiId ≠ "" then
    match hres with
    | .error e => { events := [.fetchHtml (urlHtmlFor uiId)], rejected := some e }
    | .ok html =>
      match cres with
      | .error e =>
        { events := [.fetchHtml (urlHtmlFor uiId),
            .setContent (if html = "" then "" else html), .fetchCss (urlCssFor uiId)],
          rejected := some e }
      | .ok css =>
        { events := [.fetchHtml (urlHtmlFor uiId),
            .setContent (if html = "" then "" else html), .fetchCss (urlCssFor uiId),
            .applyCss (if css = "" then "" else css)],
          rejected := none }
  else { events := [.setContent "", .applyCss ""], rejected := none }

/-- `loadExistingInto` (tinymce.js lines 78-103) including the trailing
`.catch(() => {})`, which swallows any pending rejection and performs no
step (in particular, it displays nothing). -/
def loadExistingInto (state uiId : String) (hres cres : Except String String) : LoadRun :=
  let r := loadChain state uiId hres cres
  { events := r.events, rejected := none }

theorem loadExistingInto_events (state uiId : String) (hres cres : Except String String) :
    (loadExistingInto state uiId hres cres).events = (loadChain state uiId hres cres).events :=
  rfl

/-- C8: the load routine awaits its two fetches sequentially: whenever the
request for the rendered user CSS is issued, the request for the rendered
user HTML has already resolved and the editor content has been set from its
response — in every run, any `fetchCss` step is strictly preceded by a
`setContent` step and by the `fetchHtml` step. -/
theorem loadExistingInto_sequential (state uiId : String) (hres cres : Except String String)
    (pre suf : List LoadEv) (url : String)
    (hsplit : (loadExistingInto state uiId hres cres).events = pre ++ .fetchCss url :: suf) :
    (∃ html, LoadEv.setContent html ∈ pre) ∧ ∃ uh, LoadEv.fetchHtml uh ∈ pre := by
  rw [loadExistingInto_events, loadChain.eq_def] at hsplit
  by_cases hcond : state = "edit" ∧ uiId ≠ ""
  · rw [if_pos hcond] at hsplit
    rcases hres with e | html
    · simp only at hsplit
      rcases pre with _ | ⟨e1, _ | ⟨e2, pre'⟩⟩ <;> simp_all
    · rcases cres with e | css
      · simp only at hsplit
        rcases pre with _ | ⟨e1, _ | ⟨e2, _ | ⟨e3, pre'⟩⟩⟩ <;> simp_all <;>
          try exact ⟨⟨_, Or.inr hsplit.2.1⟩, ⟨_, Or.inl hsplit.1⟩⟩
      · simp only at hsplit
        rcases pre with _ | ⟨e1, _ | ⟨e2, _ | ⟨e3, _ | ⟨e4, pre'⟩⟩⟩⟩ <;> simp_all <;>
          try exact ⟨⟨_, Or.inr hsplit.2.1⟩, ⟨_, Or.inl hsplit.1⟩⟩
  · rw [if_neg hcond] at hsplit
    rcases pre with _ | ⟨e1, _ | ⟨e2, pre'⟩⟩ <;> simp_all

/-- Witness for C8 on a successful edit-mode run with id "7". -/
theorem loadExistingInto_sequential_witness :
    (∃ html, LoadEv.setContent html ∈
      [LoadEv.fetchHtml (urlHtmlFor "7"), LoadEv.setContent "<p>x</p>"]) ∧
    ∃ uh, LoadEv.fetchHtml uh ∈
      [LoadEv.fetchHtml (urlHtmlFor "7"), LoadEv.setContent "<p>x</p>"] :=
  loadExistingInto_sequential "edit" "7" (.ok "<p>x</p>") (.ok "p \x7b color: red \x7d")
    [.fetchHtml (urlHtmlFor "7"), .setContent "<p>x</p>"]
    [.applyCss "p \x7b color: red \x7d"] (urlCssFor "7") (by decide)

/-- C9: failed fetches are swallowed by `loadExistingInto`: whichever fetch
fails, no rejection escapes (the trailing `.catch` clears it), the catch body
performs no step — in particular no error text is displayed — and every step
already completed before the failure is left in place: a failed HTML fetch
leaves just the issued HTML request, and a failed CSS fetch leaves the editor
content set from the HTML response with both requests issued. -/
theorem loadExistingInto_swallows (state uiId : String) (hres cres : Except String String) :
    (loadExistingInto state uiId hres cres).rejected = none ∧
    (loadExistingInto state uiId hres cres).events = (loadChain state uiId hres cres).events ∧
    (state = "edit" → uiId ≠ "" → ∀ e,
      (loadExistingInto state uiId (.error e) cres).events = [.fetchHtml (urlHtmlFor uiId)]) ∧
    (state = "edit" → uiId ≠ "" → ∀ html e,
      (loadExistingInto state uiId (.ok html) (.error e)).events =
        [.fetchHtml (urlHtmlFor uiId), .setContent (if html = "" then "" else html),
         .fetchCss (urlCssFor uiId)]) := by
  refine ⟨rfl, rfl, fun hs hu e => ?_, fun hs hu html e => ?_⟩
  · rw [loadExistingInto_events, loadChain.eq_def, if_pos ⟨hs, hu⟩]
  · rw [loadExistingInto_events, loadChain.eq_def, if_pos ⟨hs, hu⟩]

/-- Witness for C9 at id "7" with failing fetches. -/
theorem loadExistingInto_swallows_witness :
    (loadExistingInto "edit" "7" (.error "HTTP 500") (.ok "x")).rejected = none ∧
      (loadExistingInto "edit" "7" (.error "HTTP 500") (.ok "x")).events =
        [LoadEv.fetchHtml (urlHtmlFor "7")] ∧
      (loadExistingInto "edit" "7" (.ok "<p>x</p>") (.error "HTTP 404")).events =
        [LoadEv.fetchHtml (urlHtmlFor "7"),
         LoadEv.setContent (if "<p>x</p>" = "" then "" else "<p>x</p>"),
         LoadEv.fetchCss (urlCssFor "7")] :=
  ⟨(loadExistingInto_swallows "edit" "7" (.error "HTTP 500") (.ok "x")).1,
   (loadExistingInto_swallows "edit" "7" (.error "HTTP 500") (.ok "x")).2.2.1 rfl
     (by decide) "HTTP 500",
   (loadExistingInto_swallows "edit" "7" (.ok "<p>x</p>") (.error "HTTP 404")).2.2.2 rfl
     (by decide) "<p>x</p>" "HTTP 404"⟩

/-- C10: for every hour `hh` in 0..23 and minute `mm` in 0..59,
`parseHHMM (pad2 hh ++ ":" ++ pad2 mm)` returns exactly `(hh, mm)`:
zero-padded formatting followed by parsing round-trips to the original pair
(`pad2` receives `String(v)` of the number, modelled as `toString`). -/
theorem pad2_parseHHMM_roundtrip :
    ∀ hh < 24, ∀ mm < 60,
      parseHHMM (pad2 (toString hh) ++ ":" ++ pad2 (toString mm)) = some (hh, mm) := by
  decide

/-- Witness for C10 at `hh = 9`, `mm = 5`. -/
theorem pad2_parseHHMM_roundtrip_witness :
    parseHHMM (pad2 (toString 9) ++ ":" ++ pad2 (toString 5)) = some (9, 5) :=
  pad2_parseHHMM_roundtrip 9 (by decide) 5 (by decide)

end Mailer
